import Mathlib

set_option maxRecDepth 8192

/-!
Shallow embedding of the protocol and concurrency core of the
esp32-PatroRFID firmware, together with proofs about it.

Bytes and characters are modelled as `Nat` (with `% 256` / explicit bounds
where the C code works on `uint8_t`).  Strings of the firmware are modelled
as `List Nat` of character codes.  Stateful code (the UART receive state
machine of `R200Driver::processIncomingData`, the OTA task loop of
`otaTask`) is modelled by explicit state records and step functions.
-/

namespace PatroRFID

/-! ## Protocol constants (config.h) -/

/-- `FRAME_HEAD` from config.h: header byte of every R200 frame. -/
def FRAME_HEAD : Nat := 0xAA

/-- `FRAME_END` from config.h: footer byte of every R200 frame. -/
def FRAME_END : Nat := 0xDD

/-! ## R200Driver::calculateChecksum and R200Driver::sendCommand (R200.cpp) -/

/-- `R200Driver::calculateChecksum`: sum of the bytes, low 8 bits. -/
def calculateChecksum (data : List Nat) : Nat :=
  (data.foldl (fun sum b => sum + b) 0) % 256

/-- `R200Driver::sendCommand`: assembles the frame
`FRAME_HEAD | type | cmd | PL_MSB | PL_LSB | params | checksum | FRAME_END`
and returns the byte sequence written to the UART.  The checksum is computed
from `type` up to the last parameter byte (header excluded).  The C code
assembles this into a fixed `uint8_t packet[64]`; the model returns the full
list of bytes written, so the index of the last write is `length - 1`. -/
def sendCommand (type cmd : Nat) (params : List Nat) : List Nat :=
  let paramLen := params.length
  let body := [type, cmd, (paramLen >>> 8) % 256, paramLen % 256] ++ params
  (FRAME_HEAD :: body) ++ [calculateChecksum body, FRAME_END]

/-- Size of the `uint8_t packet[64]` assembly buffer in
`R200Driver::sendCommand`; valid indices are `0..63`. -/
def R200_PACKET_BUF_SIZE : Nat := 64

/-! ## R200Driver receive state machine (processIncomingData, R200.cpp) -/

/-- Receive-side state of `R200Driver`: `_buffer[256]` together with
`_bufferIndex` is modelled as the list of currently accumulated bytes
(`_bufferIndex = buffer.length`); `writeStatus` is the public write-outcome
field. -/
structure RxState where
  buffer : List Nat
  writeStatus : Nat
deriving DecidableEq, Repr

/-- Result of handling one incoming byte inside the `while` loop of
`R200Driver::processIncomingData`:
  * `st`    - the driver state afterwards,
  * `frame` - `some f` when the end-of-packet check fired and the frame `f`
              (the accumulated buffer) was routed this step,
  * `ret`   - `true` when the function returns `true` at this byte
              (tag notification decoded),
  * `wrote` - `some i` when `_buffer[_bufferIndex++] = b` stored the byte at
              index `i`. -/
structure StepOut where
  st : RxState
  frame : Option (List Nat)
  ret : Bool
  wrote : Option Nat
deriving DecidableEq, Repr

/-- One iteration of the byte loop in `R200Driver::processIncomingData`:
synchronisation (drop noise before a header byte), storage, end-of-packet
check with command routing (`0x22/0x02` tag, `0x49` write ok, `0xFF` error,
`0x03` hardware info), and the 256-byte overflow guard.  Serial debug prints
are omitted; they do not affect the state. -/
def procStep (st : RxState) (b : Nat) : StepOut :=
  if st.buffer.length = 0 ∧ b ≠ FRAME_HEAD then
    ⟨st, none, false, none⟩
  else
    let buf2 := st.buffer ++ [b]
    if b = FRAME_END ∧ 7 ≤ buf2.length then
      let cmd := buf2.getD 2 0
      let ty := buf2.getD 1 0
      if cmd = 0x22 ∧ ty = 0x02 then
        ⟨⟨[], st.writeStatus⟩, some buf2, true, some st.buffer.length⟩
      else
        let ws :=
          if cmd = 0x49 then 1
          else if cmd = 0xFF then buf2.getD 5 0
          else st.writeStatus
        ⟨⟨[], ws⟩, some buf2, false, some st.buffer.length⟩
    else
      let buf3 := if 256 ≤ buf2.length then [] else buf2
      ⟨⟨buf3, st.writeStatus⟩, none, false, some st.buffer.length⟩

/-- Observable outcome of one call to `R200Driver::processIncomingData` on a
byte stream: final state, the frames routed by the end-of-packet check, the
boolean return value, the bytes left unread in the UART when the function
returned, and the buffer indices written. -/
structure RunOut where
  st : RxState
  frames : List (List Nat)
  ret : Bool
  rest : List Nat
  writes : List Nat
deriving DecidableEq, Repr

/-- The `while (_serial.available())` loop of
`R200Driver::processIncomingData`: bytes are consumed one at a time; on a
decoded tag notification the function returns `true` immediately, leaving
the remaining bytes unread; otherwise it runs to the end of the stream and
returns `false`. -/
def processRun (st : RxState) : List Nat → RunOut
  | [] => ⟨st, [], false, [], []⟩
  | b :: bs =>
    let o := procStep st b
    if o.ret then ⟨o.st, o.frame.toList, true, bs, o.wrote.toList⟩
    else
      let r := processRun o.st bs
      ⟨r.st, o.frame.toList ++ r.frames, r.ret, r.rest, o.wrote.toList ++ r.writes⟩

/-! ## R200Driver::parsePacket (R200.cpp) -/

/-- Lower-case hexadecimal digit character code (as produced by Arduino
`String(value, HEX)`): `0..9 -> '0'..'9'`, `10..15 -> 'a'..'f'`. -/
def hexDigitL (n : Nat) : Nat :=
  if n < 10 then 48 + n else 87 + n

/-- Arduino `String(b, HEX)` for a `uint8_t` value `b < 256`: minimal
lower-case hex digits, i.e. one digit below `0x10` and two digits
otherwise. -/
def byteHexL (b : Nat) : List Nat :=
  if b < 16 then [hexDigitL b] else [hexDigitL (b / 16), hexDigitL (b % 16)]

/-- Arduino `String::toUpperCase` on a single character code. -/
def toUpperCode (c : Nat) : Nat :=
  if 97 ≤ c ∧ c ≤ 122 then c - 32 else c

/-- `R200Tag` (R200.h): decoded tag data. `epc` is the hex string as a list
of character codes. -/
structure R200Tag where
  epc : List Nat
  rssi : Nat
  valid : Bool
deriving DecidableEq, Repr

/-- `R200Driver::parsePacket`: reads RSSI from offset 5, the 16-bit
parameter length from offsets 3-4, computes `epcLen = paramLen - 5`
(the C `int` is negative for `paramLen < 5`, making the loop run zero
times, which truncated `Nat` subtraction matches), renders each EPC byte
starting at offset 8 as hex with a `"0"` pad below `0x10`, and upper-cases
the result.  Out-of-range reads of the 256-byte `_buffer` are modelled by
`getD _ 0`. -/
def parsePacket (pkt : List Nat) : R200Tag :=
  let rssi := pkt.getD 5 0
  let paramLen := ((pkt.getD 3 0) <<< 8) ||| pkt.getD 4 0
  let epcLen := paramLen - 5
  let epcRaw := (List.range epcLen).flatMap fun i =>
    (if pkt.getD (8 + i) 0 < 0x10 then [48] else []) ++ byteHexL (pkt.getD (8 + i) 0)
  ⟨epcRaw.map toUpperCode, rssi, true⟩

/-! ## R200Driver::hexCharToByte and R200Driver::writeEPC (R200.cpp) -/

/-- `R200Driver::hexCharToByte`: value of a hex digit character;
any non-hex-digit character yields 0. -/
def hexCharToByte (c : Nat) : Nat :=
  if 48 ≤ c ∧ c ≤ 57 then c - 48
  else if 65 ≤ c ∧ c ≤ 70 then c - 65 + 10
  else if 97 ≤ c ∧ c ≤ 102 then c - 97 + 10
  else 0

/-- Character codes accepted as hexadecimal digits (`0-9`, `A-F`, `a-f`). -/
def isHexDigitCode (c : Nat) : Prop :=
  (48 ≤ c ∧ c ≤ 57) ∨ (65 ≤ c ∧ c ≤ 70) ∨ (97 ≤ c ∧ c ≤ 102)

instance (c : Nat) : Decidable (isHexDigitCode c) := by
  unfold isHexDigitCode
  infer_instance

/-- Accumulator loop of `strtoul(s, NULL, 16)`: consume the longest prefix
of hexadecimal digit characters. -/
def strtoulHexAux : Nat → List Nat → Nat
  | acc, [] => acc
  | acc, c :: cs =>
    if isHexDigitCode c then strtoulHexAux (acc * 16 + hexCharToByte c) cs else acc

/-- `strtoul(s.c_str(), NULL, 16)` as used on the password string in
`R200Driver::writeEPC`; the result is stored into a 32-bit `uint32_t`. -/
def strtoulHex (s : List Nat) : Nat :=
  strtoulHexAux 0 s % 2 ^ 32

/-- The data-conversion loop of `R200Driver::writeEPC`
(`for i += 2: params[idx++] = (hexCharToByte(s[i]) << 4) | hexCharToByte(s[i+1])`).
The one-element case models reading the string terminator (code 0) past the
end; it is unreachable for the even lengths that pass validation. -/
def hexPairsToBytes : List Nat → List Nat
  | [] => []
  | [a] => [((hexCharToByte a) <<< 4) ||| hexCharToByte 0]
  | a :: b :: rest => (((hexCharToByte a) <<< 4) ||| hexCharToByte b) :: hexPairsToBytes rest

/-- `R200Driver::writeEPC`: validates that the EPC hex string length is a
multiple of 4; on failure returns `none` (nothing is transmitted), otherwise
composes the `0x49` write command payload
`[password(4), memBank 0x01, startAddr 0x00 0x02, wordCount(2), data]`
and returns the frame handed to `sendCommand`. -/
def writeEPC (newEPC : List Nat) (password : List Nat) : Option (List Nat) :=
  if newEPC.length % 4 ≠ 0 then none
  else
    let pwd := strtoulHex password
    let dataBytes := newEPC.length / 2
    let wordCount := dataBytes / 2
    let params :=
      [(pwd >>> 24) % 256, (pwd >>> 16) % 256, (pwd >>> 8) % 256, pwd % 256,
       0x01, 0x00, 0x02,
       (wordCount >>> 8) % 256, wordCount % 256] ++ hexPairsToBytes newEPC
    some (sendCommand 0x00 0x49 params)

/-! ## textToHex and hexToText (rfid_handler.cpp) -/

/-- The `while (hexString.length() % 4 != 0) hexString += "0"` padding loop
of `textToHex`, with an explicit iteration budget.  Appending one character
advances the length residue mod 4, so the loop exit condition is always
reached within 3 appends; `padLoop 3` therefore coincides with the unbounded
loop (see `padLoop_mod`). -/
def padLoop : Nat → List Nat → List Nat
  | 0, l => l
  | fuel + 1, l => if l.length % 4 = 0 then l else padLoop fuel (l ++ [48])

/-- `textToHex` (rfid_handler.cpp): each character is rendered as hex with a
`"0"` pad below 16, the whole string is upper-cased, then padded with `'0'`
characters to a multiple of 4. -/
def textToHex (text : List Nat) : List Nat :=
  let hexString :=
    (text.flatMap fun c => (if c < 16 then [48] else []) ++ byteHexL c).map toUpperCode
  padLoop 3 hexString

/-- `hexToText` (rfid_handler.cpp): take the hex string two characters at a
time (`substring(i, i+2)` clips to one character at an odd end), convert the
pair with `strtol(_, NULL, 16)` and keep only printable bytes (32..126). -/
def hexToText : List Nat → List Nat
  | [] => []
  | [c] =>
    let b := strtoulHexAux 0 [c]
    if 32 ≤ b ∧ b ≤ 126 then [b] else []
  | c1 :: c2 :: rest =>
    let b := strtoulHexAux 0 [c1, c2]
    (if 32 ≤ b ∧ b ≤ 126 then [b] else []) ++ hexToText rest

/-! ## OTA transfer engine (ble_comm.cpp: writeBinary, otaTask) -/

/-- Global OTA state of ble_comm.cpp relevant to the transfer engine.
`fileLen` is the current length of `/update.bin` (appends only). -/
structure OtaState where
  otaMode : Nat
  sendMode : Bool
  sendSize : Bool
  writeFile : Bool
  request : Bool
  current : Bool
  writeLen : Nat
  writeLen2 : Nat
  parts : Nat
  cur : Nat
  rParts : Nat
  tParts : Nat
  fileLen : Nat
  btConnected : Bool
deriving DecidableEq, Repr

/-- Notifications sent on the OTA TX characteristic by `otaTask`, plus the
terminal hand-off (`updateFromFS` → `performUpdate` → reboot). -/
inductive OtaNote where
  | fMode
  | fSize
  | chunkReq (n : Nat)
  | complete (n : Nat)
  | finalizeReboot
deriving DecidableEq, Repr

/-- `writeBinary` (ble_comm.cpp): append `len` bytes of the staging buffer
to `/update.bin`; on success clear `writeFile` and advance `rParts`.  If the
file fails to open (`openOk = false`) the function returns with the state
unchanged. -/
def writeBinary (openOk : Bool) (len : Nat) (s : OtaState) : OtaState :=
  if openOk then
    { s with fileLen := s.fileLen + len, writeFile := false, rParts := s.rParts + len }
  else s

/-- The `if (writeFile) { if (!current) writeBinary(updater, writeLen) else
writeBinary(updater2, writeLen2) }` block shared by the `UPDATE_MODE` and
`OTA_MODE` branches of `otaTask`. -/
def flushPending (openOk : Bool) (s : OtaState) : OtaState :=
  if s.writeFile then
    writeBinary openOk (if s.current = false then s.writeLen else s.writeLen2) s
  else s

/-- `NORMAL_MODE` branch of `otaTask`. -/
def otaStepNormal (s : OtaState) : OtaState × List OtaNote :=
  if s.btConnected then
    let p1 := if s.sendMode then ({ s with sendMode := false }, [OtaNote.fMode])
              else (s, ([] : List OtaNote))
    let p2 := if p1.1.sendSize then ({ p1.1 with sendSize := false }, [OtaNote.fSize])
              else (p1.1, ([] : List OtaNote))
    (p2.1, p1.2 ++ p2.2)
  else (s, [])

/-- `UPDATE_MODE` branch of `otaTask`: emit a pending chunk request, detect
the last declared chunk (move to `OTA_MODE` and notify completion), then
flush a pending staging buffer. -/
def otaStepUpdate (openOk : Bool) (s : OtaState) : OtaState × List OtaNote :=
  let p1 := if s.request then ({ s with request := false }, [OtaNote.chunkReq (s.cur + 1)])
            else (s, ([] : List OtaNote))
  let p2 := if p1.1.cur + 1 = p1.1.parts then
              ({ p1.1 with otaMode := 2 }, [OtaNote.complete (p1.1.cur + 1)])
            else (p1.1, ([] : List OtaNote))
  (flushPending openOk p2.1, p1.2 ++ p2.2)

/-- `OTA_MODE` branch of `otaTask`: flush a pending staging buffer, then
finalize (`updateFromFS`, which applies the image and reboots) exactly when
`rParts == tParts`; otherwise print "Incomplete" and set `writeFile` again. -/
def otaStepOta (openOk : Bool) (s : OtaState) : OtaState × List OtaNote :=
  let s1 := flushPending openOk s
  if s1.rParts = s1.tParts then (s1, [OtaNote.finalizeReboot])
  else ({ s1 with writeFile := true }, [])

/-- One iteration of the `for (;;)` loop of `otaTask` (`switch (OTA_STATE)`).
`NORMAL_MODE = 0`, `UPDATE_MODE = 1`, `OTA_MODE = 2`. -/
def otaStep (openOk : Bool) (s : OtaState) : OtaState × List OtaNote :=
  if s.otaMode = 0 then otaStepNormal s
  else if s.otaMode = 1 then otaStepUpdate openOk s
  else if s.otaMode = 2 then otaStepOta openOk s
  else (s, [])

/-! ## writeDataMutex acquisition sites (ble_comm.cpp, main.cpp, rfid_handler.cpp) -/

/-- FreeRTOS `portMAX_DELAY`: with `INCLUDE_vTaskSuspend` enabled (the ESP32
default) a take with this value blocks indefinitely. -/
def portMAX_DELAY : Nat := 0xFFFFFFFF

/-- One `xSemaphoreTake(writeDataMutex, timeout)` call site:
whether it sits in a BLE `onWrite` callback (as opposed to a task loop) and
the timeout in ticks it passes. -/
structure MutexUse where
  isCallbackSite : Bool
  timeoutTicks : Nat
deriving DecidableEq, Repr

/-- All `xSemaphoreTake(writeDataMutex, _)` call sites in the sources, in
order: `AppCallbacks::onWrite` (ble_comm.cpp line 200, `portMAX_DELAY`),
`MyCallbacks::onWrite` (main.cpp line 151, `portMAX_DELAY`),
`rfidTask` (rfid_handler.cpp line 47, 10 ticks),
`rfidWriteTask` (rfid_handler.cpp line 149, 10 ticks). -/
def writeDataMutexAcquisitions : List MutexUse :=
  [⟨true, portMAX_DELAY⟩, ⟨true, portMAX_DELAY⟩, ⟨false, 10⟩, ⟨false, 10⟩]

/-! ## Auxiliary definitions used by the proofs -/

/-- Invariant of the receive buffer: whenever it is nonempty, its first byte
is the frame header (the synchronisation step only ever stores `FRAME_HEAD`
at index 0). -/
def HeadInv (l : List Nat) : Prop :=
  l ≠ [] → l.getD 0 0 = FRAME_HEAD

/-- The per-character hex rendering shared by the loop bodies of
`textToHex` and `parsePacket`: a `"0"` pad below 16, the minimal lower-case
hex digits, then the final `toUpperCase`. -/
def encChar (c : Nat) : List Nat :=
  ((if c < 16 then [48] else []) ++ byteHexL c).map toUpperCode

/-- Character codes of upper-case hexadecimal digits (`0-9`, `A-F`). -/
def isUpperHexCode (c : Nat) : Prop :=
  (48 ≤ c ∧ c ≤ 57) ∨ (65 ≤ c ∧ c ≤ 70)

instance (c : Nat) : Decidable (isUpperHexCode c) := by
  unfold isUpperHexCode
  infer_instance

/-- A complete tag-notification frame with `paramLength = 9`:
RSSI `0x30`, PC `0x12 0x34`, four EPC bytes `0xAB 0xCD 0x00 0x01`,
a 2-byte CRC, checksum byte, footer. -/
def pkt9 : List Nat :=
  [0xAA, 0x02, 0x22, 0x00, 0x09, 0x30, 0x12, 0x34, 0xAB, 0xCD, 0x00, 0x01, 0x00, 0x00, 0x00, 0xDD]

/-- Character codes of the default password string `"00000000"`. -/
def pwd48 : List Nat := [48, 48, 48, 48, 48, 48, 48, 48]

/-- An `otaTask` state in `OTA_MODE` after all declared chunks have been
flushed: 900 of the announced 1000 bytes were received and no flush is
pending. -/
def s900 : OtaState :=
  { otaMode := 2, sendMode := false, sendSize := false, writeFile := false,
    request := false, current := true, writeLen := 0, writeLen2 := 0,
    parts := 10, cur := 9, rParts := 900, tParts := 1000, fileLen := 900,
    btConnected := true }

/-! ## General lemmas about the embedded definitions -/

lemma sendCommand_length (type cmd : Nat) (params : List Nat) :
    (sendCommand type cmd params).length = 7 + params.length := by
  simp [sendCommand]
  omega

lemma hexPairsToBytes_length : ∀ l : List Nat, (hexPairsToBytes l).length = (l.length + 1) / 2
  | [] => by simp [hexPairsToBytes]
  | [a] => by simp [hexPairsToBytes]
  | a :: b :: rest => by
    simp [hexPairsToBytes, hexPairsToBytes_length rest]
    omega

lemma flushPending_tParts (openOk : Bool) (s : OtaState) :
    (flushPending openOk s).tParts = s.tParts := by
  unfold flushPending writeBinary
  split
  · split <;> rfl
  · rfl

lemma flushPending_rParts_le (openOk : Bool) (s : OtaState) :
    s.rParts ≤ (flushPending openOk s).rParts := by
  unfold flushPending writeBinary
  split
  · split
    · exact Nat.le_add_right _ _
    · exact Nat.le_refl _
  · exact Nat.le_refl _

lemma flushPending_request (openOk : Bool) (s : OtaState) :
    (flushPending openOk s).request = s.request := by
  unfold flushPending writeBinary
  split
  · split <;> rfl
  · rfl

lemma flushPending_otaMode (openOk : Bool) (s : OtaState) :
    (flushPending openOk s).otaMode = s.otaMode := by
  unfold flushPending writeBinary
  split
  · split <;> rfl
  · rfl

/-! ## Lemmas about the receive state machine -/

lemma procStep_skip (st : RxState) (b : Nat) (h0 : st.buffer.length = 0)
    (hb : b ≠ FRAME_HEAD) : procStep st b = ⟨st, none, false, none⟩ := by
  simp only [procStep]
  rw [if_pos ⟨h0, hb⟩]

lemma procStep_store (st : RxState) (b : Nat)
    (h : ¬ (st.buffer.length = 0 ∧ b ≠ FRAME_HEAD))
    (hf : ¬ (b = FRAME_END ∧ 7 ≤ (st.buffer ++ [b]).length)) :
    procStep st b =
      ⟨⟨if 256 ≤ (st.buffer ++ [b]).length then [] else st.buffer ++ [b], st.writeStatus⟩,
        none, false, some st.buffer.length⟩ := by
  simp only [procStep]
  rw [if_neg h, if_neg hf]

lemma procStep_fire (st : RxState) (b : Nat)
    (h : ¬ (st.buffer.length = 0 ∧ b ≠ FRAME_HEAD))
    (hf : b = FRAME_END ∧ 7 ≤ (st.buffer ++ [b]).length) :
    (procStep st b).frame = some (st.buffer ++ [b]) ∧
    (procStep st b).st.buffer = [] ∧
    ((procStep st b).ret = true ↔
      ((st.buffer ++ [b]).getD 2 0 = 0x22 ∧ (st.buffer ++ [b]).getD 1 0 = 0x02)) ∧
    (procStep st b).wrote = some st.buffer.length := by
  simp only [procStep]
  rw [if_neg h, if_pos hf]
  by_cases hc : (st.buffer ++ [b]).getD 2 0 = 0x22 ∧ (st.buffer ++ [b]).getD 1 0 = 0x02
  · rw [if_pos hc]
    exact ⟨rfl, rfl, iff_of_true rfl hc, rfl⟩
  · rw [if_neg hc]
    exact ⟨rfl, rfl, iff_of_false Bool.false_ne_true hc, rfl⟩

lemma procStep_headInv (st : RxState) (b : Nat) (h : HeadInv st.buffer) :
    HeadInv (procStep st b).st.buffer := by
  by_cases h1 : st.buffer.length = 0 ∧ b ≠ FRAME_HEAD
  · rw [procStep_skip st b h1.1 h1.2]
    exact h
  · by_cases h2 : b = FRAME_END ∧ 7 ≤ (st.buffer ++ [b]).length
    · intro hne
      exact absurd (procStep_fire st b h1 h2).2.1 hne
    · rw [procStep_store st b h1 h2]
      intro hne
      by_cases h3 : 256 ≤ (st.buffer ++ [b]).length
      · rw [if_pos h3] at hne
        exact absurd rfl hne
      · rw [if_neg h3] at hne ⊢
        by_cases h4 : st.buffer = []
        · have hb : b = FRAME_HEAD := by
            by_contra hb
            exact h1 ⟨by simp [h4], hb⟩
          simp [h4, hb]
        · rw [List.getD_append _ _ _ _ (List.length_pos.mpr h4)]
          exact h h4

lemma procStep_bound (st : RxState) (b : Nat) (h : st.buffer.length ≤ 255) :
    (procStep st b).st.buffer.length ≤ 255 ∧
    ∀ p ∈ (procStep st b).wrote.toList, p < 256 := by
  by_cases h1 : st.buffer.length = 0 ∧ b ≠ FRAME_HEAD
  · rw [procStep_skip st b h1.1 h1.2]
    exact ⟨h, by simp⟩
  · by_cases h2 : b = FRAME_END ∧ 7 ≤ (st.buffer ++ [b]).length
    · obtain ⟨-, hbuf, -, hw⟩ := procStep_fire st b h1 h2
      refine ⟨by rw [hbuf]; simp, ?_⟩
      rw [hw]
      intro p hp
      simp at hp
      omega
    · rw [procStep_store st b h1 h2]
      constructor
      · by_cases h3 : 256 ≤ (st.buffer ++ [b]).length
        · rw [if_pos h3]
          simp
        · rw [if_neg h3]
          simp at h3 ⊢
          omega
      · intro p hp
        simp at hp
        omega

lemma processRun_bound : ∀ (bs : List Nat) (st : RxState), st.buffer.length ≤ 255 →
    (∀ p ∈ (processRun st bs).writes, p < 256) ∧
    (processRun st bs).st.buffer.length ≤ 255 := by
  intro bs
  induction bs with
  | nil =>
    intro st h
    exact ⟨by simp [processRun], h⟩
  | cons b bs ih =>
    intro st h
    obtain ⟨hlen, hw⟩ := procStep_bound st b h
    by_cases hr : (procStep st b).ret = true
    · constructor
      · intro p hp
        simp only [processRun, hr, if_pos] at hp
        exact hw p hp
      · simp only [processRun, hr, if_pos]
        exact hlen
    · have hr2 : (procStep st b).ret = false := by
        simpa using hr
      obtain ⟨ih1, ih2⟩ := ih (procStep st b).st hlen
      constructor
      · intro p hp
        simp only [processRun, hr2, Bool.false_eq_true, if_false, List.mem_append] at hp
        rcases hp with hp | hp
        · exact hw p hp
        · exact ih1 p hp
      · simp only [processRun, hr2, Bool.false_eq_true, if_false]
        exact ih2

lemma processRun_skipAll : ∀ (bs : List Nat) (w : Nat),
    (∀ x ∈ bs, x ≠ FRAME_HEAD) →
    processRun ⟨[], w⟩ bs = ⟨⟨[], w⟩, [], false, [], []⟩ := by
  intro bs
  induction bs with
  | nil => intro w _; rfl
  | cons b bs ih =>
    intro w h
    have hstep := procStep_skip ⟨[], w⟩ b rfl (h b (by simp))
    simp [processRun, hstep, ih w (fun x hx => h x (by simp [hx]))]

lemma processRun_fillReset : ∀ (bs : List Nat) (st : RxState),
    (∀ x ∈ bs, x ≠ FRAME_HEAD ∧ x ≠ FRAME_END) → st.buffer ≠ [] →
    st.buffer.length ≤ 255 → 256 ≤ st.buffer.length + bs.length →
    (processRun st bs).st = ⟨[], st.writeStatus⟩ ∧
    (processRun st bs).ret = false := by
  intro bs
  induction bs with
  | nil =>
    intro st h hne hle hbig
    simp at hbig
    omega
  | cons b bs ih =>
    intro st h hne hle hbig
    have hnotskip : ¬ (st.buffer.length = 0 ∧ b ≠ FRAME_HEAD) := by
      rintro ⟨hz, -⟩
      exact hne (List.length_eq_zero.mp hz)
    have hnotfire : ¬ (b = FRAME_END ∧ 7 ≤ (st.buffer ++ [b]).length) := by
      rintro ⟨hb, -⟩
      exact (h b (by simp)).2 hb
    have hstep := procStep_store st b hnotskip hnotfire
    by_cases hovf : 256 ≤ (st.buffer ++ [b]).length
    · have hstep2 : procStep st b =
          ⟨⟨[], st.writeStatus⟩, none, false, some st.buffer.length⟩ := by
        rw [hstep, if_pos hovf]
      have hrest := processRun_skipAll bs st.writeStatus
        (fun x hx => (h x (by simp [hx])).1)
      simp [processRun, hstep2, hrest]
    · have hstep2 : procStep st b =
          ⟨⟨st.buffer ++ [b], st.writeStatus⟩, none, false, some st.buffer.length⟩ := by
        rw [hstep, if_neg hovf]
      have hlen2 : (st.buffer ++ [b]).length ≤ 255 := by
        simp at hovf ⊢
        omega
      have hbig2 : 256 ≤ (st.buffer ++ [b]).length + bs.length := by
        simp at hbig ⊢
        omega
      have hrec := ih ⟨st.buffer ++ [b], st.writeStatus⟩
        (fun x hx => h x (by simp [hx])) (by simp) hlen2 hbig2
      simp only [processRun, hstep2, Bool.false_eq_true, if_false]
      exact hrec

lemma processRun_append : ∀ (xs : List Nat) (st : RxState),
    (processRun st xs).ret = false → ∀ ys,
    processRun st (xs ++ ys) =
      ⟨(processRun (processRun st xs).st ys).st,
       (processRun st xs).frames ++ (processRun (processRun st xs).st ys).frames,
       (processRun (processRun st xs).st ys).ret,
       (processRun (processRun st xs).st ys).rest,
       (processRun st xs).writes ++ (processRun (processRun st xs).st ys).writes⟩ := by
  intro xs
  induction xs with
  | nil =>
    intro st h ys
    simp [processRun]
  | cons x xs ih =>
    intro st h ys
    by_cases hr : (procStep st x).ret = true
    · exfalso
      simp [processRun, hr] at h
    · have hr2 : (procStep st x).ret = false := by
        simpa using hr
      have h2 : (processRun (procStep st x).st xs).ret = false := by
        simpa [processRun, hr2] using h
      simp [processRun, hr2, ih (procStep st x).st h2 ys, List.append_assoc]

lemma processRun_head (w : Nat) :
    processRun ⟨[], w⟩ [FRAME_HEAD] = ⟨⟨[FRAME_HEAD], w⟩, [], false, [], [0]⟩ := by
  have hstep := procStep_store ⟨[], w⟩ FRAME_HEAD (by simp)
    (by simp [FRAME_HEAD, FRAME_END])
  simp [processRun, hstep]

lemma processRun_accum : ∀ (xs : List Nat) (st : RxState), st.buffer ≠ [] →
    st.buffer.length + xs.length ≤ 255 →
    (∀ i, i < xs.length → xs.getD i 0 = FRAME_END → st.buffer.length + i + 1 < 7) →
    (processRun st xs).st = ⟨st.buffer ++ xs, st.writeStatus⟩ ∧
    (processRun st xs).frames = [] ∧ (processRun st xs).ret = false := by
  intro xs
  induction xs with
  | nil =>
    intro st hne hlen hc
    simp [processRun]
  | cons x xs ih =>
    intro st hne hlen hc
    have hnotskip : ¬ (st.buffer.length = 0 ∧ x ≠ FRAME_HEAD) := by
      rintro ⟨hz, -⟩
      exact hne (List.length_eq_zero.mp hz)
    have hnotfire : ¬ (x = FRAME_END ∧ 7 ≤ (st.buffer ++ [x]).length) := by
      rintro ⟨hx, h7⟩
      have := hc 0 (by simp) (by simpa using hx)
      simp at h7
      omega
    have hovf : ¬ 256 ≤ (st.buffer ++ [x]).length := by
      simp at hlen ⊢
      omega
    have hstep := procStep_store st x hnotskip hnotfire
    have hstep2 : procStep st x =
        ⟨⟨st.buffer ++ [x], st.writeStatus⟩, none, false, some st.buffer.length⟩ := by
      rw [hstep, if_neg hovf]
    have hrec := ih ⟨st.buffer ++ [x], st.writeStatus⟩ (by simp)
      (by simp at hlen ⊢; omega)
      (fun i hi he => by
        have := hc (i + 1) (by simpa using Nat.succ_lt_succ hi) (by simpa using he)
        simp at this ⊢
        omega)
    refine ⟨?_, ?_, ?_⟩
    · simp only [processRun, hstep2, Bool.false_eq_true, if_false]
      rw [hrec.1]
      simp
    · simp only [processRun, hstep2, Bool.false_eq_true, if_false]
      simp [hrec.2.1]
    · simp only [processRun, hstep2, Bool.false_eq_true, if_false]
      exact hrec.2.2

lemma processRun_fireEnd (st : RxState) (h0 : st.buffer ≠ [])
    (h7 : 7 ≤ st.buffer.length + 1) (ys : List Nat)
    (hys : ∀ x ∈ ys, x ≠ FRAME_HEAD) :
    (processRun st (FRAME_END :: ys)).frames = [st.buffer ++ [FRAME_END]] := by
  have hnotskip : ¬ (st.buffer.length = 0 ∧ FRAME_END ≠ FRAME_HEAD) := by
    rintro ⟨hz, -⟩
    exact h0 (List.length_eq_zero.mp hz)
  have hfire : FRAME_END = FRAME_END ∧ 7 ≤ (st.buffer ++ [FRAME_END]).length :=
    ⟨rfl, by simp; omega⟩
  obtain ⟨hframe, hbuf, -, -⟩ := procStep_fire st FRAME_END hnotskip hfire
  by_cases htag : (procStep st FRAME_END).ret = true
  · simp [processRun, htag, hframe]
  · have htag2 : (procStep st FRAME_END).ret = false := by
      simpa using htag
    set w2 := (procStep st FRAME_END).st.writeStatus with hw2
    have hsteq : (procStep st FRAME_END).st = (⟨[], w2⟩ : RxState) := by
      rw [hw2, ← hbuf]
    have hrest := processRun_skipAll ys w2 hys
    simp [processRun, htag2, hframe, hsteq, hrest]

lemma getD_drop_one_ne (ps : List Nat) (hdd : FRAME_END ∉ ps.drop 1) :
    ∀ j, 1 ≤ j → j < ps.length → ps.getD j 0 ≠ FRAME_END := by
  intro j h1 h2 he
  apply hdd
  have hj : j - 1 < (ps.drop 1).length := by
    rw [List.length_drop]
    omega
  have heq : (ps.drop 1).getD (j - 1) 0 = ps.getD j 0 := by
    rw [List.getD_eq_getElem _ _ hj, List.getD_eq_getElem _ _ h2]
    rw [List.getElem_drop]
    congr 1
    omega
  have hmem : (ps.drop 1).getD (j - 1) 0 ∈ ps.drop 1 := by
    rw [List.getD_eq_getElem _ _ hj]
    exact List.getElem_mem hj
  rw [heq, he] at hmem
  exact hmem

lemma sendCommand_eq (t c : Nat) (ps : List Nat) (h : ps.length ≤ 57) :
    sendCommand t c ps =
      FRAME_HEAD :: t :: c :: 0 :: ps.length ::
        (ps ++ [calculateChecksum ([t, c, 0, ps.length] ++ ps), FRAME_END]) := by
  have h1 : (ps.length >>> 8) % 256 = 0 := by
    have hz : ps.length >>> 8 = 0 := by
      rw [Nat.shiftRight_eq_div_pow]
      omega
    rw [hz]
  have h2 : ps.length % 256 = ps.length := Nat.mod_eq_of_lt (by omega)
  simp only [sendCommand]
  rw [h1, h2]
  simp

lemma procStep_ret_props (st : RxState) (b : Nat) (hh : HeadInv st.buffer)
    (hr : (procStep st b).ret = true) :
    (procStep st b).frame = some (st.buffer ++ [b]) ∧
    (st.buffer ++ [b]).getD 0 0 = FRAME_HEAD ∧
    (st.buffer ++ [b]).getLast? = some FRAME_END ∧
    7 ≤ (st.buffer ++ [b]).length ∧
    (st.buffer ++ [b]).getD 1 0 = 0x02 ∧ (st.buffer ++ [b]).getD 2 0 = 0x22 := by
  by_cases h1 : st.buffer.length = 0 ∧ b ≠ FRAME_HEAD
  · rw [procStep_skip st b h1.1 h1.2] at hr
    simp at hr
  · by_cases h2 : b = FRAME_END ∧ 7 ≤ (st.buffer ++ [b]).length
    · obtain ⟨hframe, -, hiff, -⟩ := procStep_fire st b h1 h2
      have hc := hiff.mp hr
      have hne : st.buffer ≠ [] := by
        intro hemp
        rw [hemp] at h2
        simp at h2
      refine ⟨hframe, ?_, ?_, h2.2, hc.2, hc.1⟩
      · rw [List.getD_append _ _ _ _ (List.length_pos.mpr hne)]
        exact hh hne
      · rw [List.getLast?_concat, h2.1]
    · rw [procStep_store st b h1 h2] at hr
      simp at hr

/-! ## Claim theorems: encode/decode round trip (C1) -/

/-- Claim C1, counterexample: for `type = 0`, `cmd = 0`,
`params = [0x00, 0xDD, 0x00]`, the receive machine terminates the frame
early at the `0xDD` parameter byte (mistaken for the footer), so the single
reconstructed frame does not carry the original params. -/
theorem sendCommand_roundtrip_cex :
    ¬ ∃ F, (processRun ⟨[], 0⟩ (sendCommand 0 0 [0, 0xDD, 0])).frames = [F] ∧
      F.getD 1 0 = 0 ∧ F.getD 2 0 = 0 ∧ (F.drop 5).take 3 = [0, 0xDD, 0] := by
  rintro ⟨F, hF, -, -, ht⟩
  have he : (processRun ⟨[], 0⟩ (sendCommand 0 0 [0, 0xDD, 0])).frames =
      [[0xAA, 0, 0, 0, 3, 0, 0xDD]] := by decide
  rw [he] at hF
  have hFe : F = [0xAA, 0, 0, 0, 3, 0, 0xDD] := by
    injection hF with h1 h2
    exact h1.symm
  rw [hFe] at ht
  exact absurd ht (by decide)

/-- Behaviour of the receive machine on one full `sendCommand`-shaped byte
sequence `header, type, cmd, 0, PL, tail, footer-byte, trailing ys`: the
header synchronizes, `type..tail` accumulate without firing, the `0xDD`
fires the end-of-packet check once, and trailing non-header bytes are
skipped — producing exactly one routed frame. -/
lemma roundtrip_core (t c : Nat) (ps : List Nat) (tail ys : List Nat)
    (hsend : sendCommand t c ps =
      [FRAME_HEAD] ++ ((t :: c :: 0 :: ps.length :: tail) ++ (FRAME_END :: ys)))
    (hbudget : 1 + (t :: c :: 0 :: ps.length :: tail).length ≤ 255)
    (hxs : ∀ i, i < (t :: c :: 0 :: ps.length :: tail).length →
      (t :: c :: 0 :: ps.length :: tail).getD i 0 = FRAME_END → 5 ≤ i → False)
    (h7 : 7 ≤ 1 + (t :: c :: 0 :: ps.length :: tail).length + 1)
    (hys : ∀ x ∈ ys, x ≠ FRAME_HEAD)
    (htake : (tail ++ [FRAME_END]).take ps.length = ps) :
    ∃ F, (processRun ⟨[], 0⟩ (sendCommand t c ps)).frames = [F] ∧
      F.getD 1 0 = t ∧ F.getD 2 0 = c ∧ (F.drop 5).take ps.length = ps := by
  have h0 := processRun_head 0
  have h0ret : (processRun ⟨[], 0⟩ [FRAME_HEAD]).ret = false := by
    rw [h0]
  have hacc := processRun_accum (t :: c :: 0 :: ps.length :: tail) ⟨[FRAME_HEAD], 0⟩
    (by simp) (by simpa using hbudget)
    (fun i hi he => by
      by_contra hlt
      push_neg at hlt
      simp at hlt
      exact hxs i hi he (by omega))
  have hframes1 : (processRun ⟨[], 0⟩ (sendCommand t c ps)).frames =
      (processRun ⟨[FRAME_HEAD], 0⟩
        ((t :: c :: 0 :: ps.length :: tail) ++ (FRAME_END :: ys))).frames := by
    rw [hsend, processRun_append [FRAME_HEAD] ⟨[], 0⟩ h0ret
      ((t :: c :: 0 :: ps.length :: tail) ++ (FRAME_END :: ys)), h0]
    simp
  have hframes2 : (processRun ⟨[FRAME_HEAD], 0⟩
      ((t :: c :: 0 :: ps.length :: tail) ++ (FRAME_END :: ys))).frames =
      (processRun ⟨[FRAME_HEAD] ++ (t :: c :: 0 :: ps.length :: tail), 0⟩
        (FRAME_END :: ys)).frames := by
    rw [processRun_append (t :: c :: 0 :: ps.length :: tail) ⟨[FRAME_HEAD], 0⟩
      hacc.2.2 (FRAME_END :: ys), hacc.2.1, hacc.1]
    simp
  have hfire := processRun_fireEnd
    ⟨[FRAME_HEAD] ++ (t :: c :: 0 :: ps.length :: tail), 0⟩
    (by simp) (by simp at h7 ⊢; omega) ys hys
  refine ⟨([FRAME_HEAD] ++ (t :: c :: 0 :: ps.length :: tail)) ++ [FRAME_END],
    ?_, rfl, rfl, htake⟩
  rw [hframes1, hframes2]
  exact hfire

/-- Claim C1 as amended: for every type byte, command byte and params list
that fits the 64-byte frame assembly buffer (`params.length ≤ 57`) and
contains no `0xDD` byte at params offset 1 or later (at those offsets a
`0xDD` is mistaken for the frame footer), feeding `sendCommand`'s output
into the receive machine reconstructs exactly one frame, whose type,
command and params bytes equal the originals. -/
theorem sendCommand_roundtrip_reconstructs (t c : Nat) (ps : List Nat)
    (hlen : ps.length ≤ 57) (hdd : FRAME_END ∉ ps.drop 1) :
    ∃ F, (processRun ⟨[], 0⟩ (sendCommand t c ps)).frames = [F] ∧
      F.getD 1 0 = t ∧ F.getD 2 0 = c ∧ (F.drop 5).take ps.length = ps := by
  have hpsd := getD_drop_one_ne ps hdd
  by_cases hB : calculateChecksum ([t, c, 0, ps.length] ++ ps) = FRAME_END ∧ ps ≠ []
  · -- the checksum byte itself equals 0xDD: the frame completes at the
    -- checksum byte and the true footer is then skipped as noise
    refine roundtrip_core t c ps ps [FRAME_END] ?_ ?_ ?_ ?_ ?_ ?_
    · rw [sendCommand_eq t c ps hlen, hB.1]
      simp
    · simp
      omega
    · intro i hi he hge
      simp at hi
      have hx : (t :: c :: 0 :: ps.length :: ps).getD i 0 = ps.getD (i - 4) 0 := by
        rw [show t :: c :: 0 :: ps.length :: ps = [t, c, 0, ps.length] ++ ps from rfl,
          List.getD_append_right _ _ _ _ (by simp; omega)]
        simp
      rw [hx] at he
      exact hpsd (i - 4) (by omega) (by omega) he
    · simp
      have := List.length_pos.mpr hB.2
      omega
    · intro x hx
      simp at hx
      rw [hx]
      decide
    · exact List.take_left ps [FRAME_END]
  · -- normal completion at the true footer byte
    refine roundtrip_core t c ps
      (ps ++ [calculateChecksum ([t, c, 0, ps.length] ++ ps)]) [] ?_ ?_ ?_ ?_ ?_ ?_
    · rw [sendCommand_eq t c ps hlen]
      simp
    · simp
      omega
    · intro i hi he hge
      simp at hi
      have hx : (t :: c :: 0 :: ps.length ::
          (ps ++ [calculateChecksum ([t, c, 0, ps.length] ++ ps)])).getD i 0 =
          (ps ++ [calculateChecksum ([t, c, 0, ps.length] ++ ps)]).getD (i - 4) 0 := by
        rw [show t :: c :: 0 :: ps.length ::
            (ps ++ [calculateChecksum ([t, c, 0, ps.length] ++ ps)]) =
            [t, c, 0, ps.length] ++ (ps ++ [calculateChecksum ([t, c, 0, ps.length] ++ ps)])
          from rfl, List.getD_append_right _ _ _ _ (by simp; omega)]
        simp
      rw [hx] at he
      by_cases hin : i - 4 < ps.length
      · rw [List.getD_append _ _ _ _ hin] at he
        exact hpsd (i - 4) (by omega) hin he
      · have hieq : i - 4 = ps.length := by omega
        rw [List.getD_append_right _ _ _ _ (by omega), hieq, Nat.sub_self] at he
        simp at he
        push_neg at hB
        have hps : ps = [] := hB he
        rw [hps] at hieq
        simp at hieq
        omega
    · simp
      omega
    · intro x hx
      simp at hx
    · rw [List.append_assoc]
      exact List.take_left ps _

/-- Witness for the amended C1 at `type = 2`, `cmd = 0x22`,
`params = [0xDD, 0x07]` (a `0xDD` as the first params byte is harmless). -/
theorem sendCommand_roundtrip_witness :
    ∃ F, (processRun ⟨[], 0⟩ (sendCommand 2 34 [221, 7])).frames = [F] ∧
      F.getD 1 0 = 2 ∧ F.getD 2 0 = 34 ∧ (F.drop 5).take 2 = [221, 7] :=
  sendCommand_roundtrip_reconstructs 2 34 [221, 7] (by decide) (by decide)

/-! ## Claim theorems: tag reporting gate (C2) -/

/-- Claim C2: `processIncomingData` returns `true` only after accumulating a
frame that begins with `FRAME_HEAD`, ends with `FRAME_END`, is at least 7
bytes long and carries type `0x02` and command `0x22` (first conjunct, for
any start state satisfying the header invariant); and on that path it
returns at the completing byte, leaving the remaining stream unread
(second conjunct). -/
theorem processIncomingData_true_requires_tag_frame :
    (∀ (st : RxState) (bs : List Nat), HeadInv st.buffer →
      (processRun st bs).ret = true →
      ∃ F, (processRun st bs).frames.getLast? = some F ∧
        F.getD 0 0 = FRAME_HEAD ∧ F.getLast? = some FRAME_END ∧
        7 ≤ F.length ∧ F.getD 1 0 = 0x02 ∧ F.getD 2 0 = 0x22) ∧
    (∀ (st : RxState) (b : Nat) (bs : List Nat), (procStep st b).ret = true →
      processRun st (b :: bs) =
        ⟨(procStep st b).st, (procStep st b).frame.toList, true, bs,
          (procStep st b).wrote.toList⟩) := by
  constructor
  · intro st bs
    induction bs generalizing st with
    | nil =>
      intro _ hr
      simp [processRun] at hr
    | cons b bs ih =>
      intro hh hr
      by_cases ho : (procStep st b).ret = true
      · obtain ⟨hframe, hprops⟩ := procStep_ret_props st b hh ho
        refine ⟨st.buffer ++ [b], ?_, hprops⟩
        simp [processRun, ho, hframe]
      · have ho2 : (procStep st b).ret = false := by
          simpa using ho
        have hh2 := procStep_headInv st b hh
        have hr2 : (processRun (procStep st b).st bs).ret = true := by
          simpa [processRun, ho2] using hr
        obtain ⟨F, hF, hprops⟩ := ih (procStep st b).st hh2 hr2
        refine ⟨F, ?_, hprops⟩
        have hne : (processRun (procStep st b).st bs).frames ≠ [] := by
          intro hemp
          rw [hemp] at hF
          simp at hF
        simp only [processRun, ho2, Bool.false_eq_true, if_false]
        rw [List.getLast?_append_of_ne_nil _ hne]
        exact hF
  · intro st b bs hr
    simp [processRun, hr]

/-- Witness for C2: a complete 7-byte tag-notification frame fed from the
empty state reports a tag with all the stated frame properties, and the
step on the completing footer byte short-circuits, leaving trailing bytes
unread. -/
theorem processIncomingData_true_requires_tag_frame_witness :
    (∃ F, (processRun ⟨[], 0⟩ [0xAA, 0x02, 0x22, 0x00, 0x00, 0x24, 0xDD]).frames.getLast? = some F ∧
      F.getD 0 0 = FRAME_HEAD ∧ F.getLast? = some FRAME_END ∧
      7 ≤ F.length ∧ F.getD 1 0 = 0x02 ∧ F.getD 2 0 = 0x22) ∧
    (processRun ⟨[0xAA, 0x02, 0x22, 0x00, 0x00, 0x24], 0⟩ (0xDD :: [1, 2, 3]) =
      ⟨(procStep ⟨[0xAA, 0x02, 0x22, 0x00, 0x00, 0x24], 0⟩ 0xDD).st,
        (procStep ⟨[0xAA, 0x02, 0x22, 0x00, 0x00, 0x24], 0⟩ 0xDD).frame.toList, true,
        [1, 2, 3],
        (procStep ⟨[0xAA, 0x02, 0x22, 0x00, 0x00, 0x24], 0⟩ 0xDD).wrote.toList⟩) :=
  ⟨processIncomingData_true_requires_tag_frame.1 ⟨[], 0⟩
      [0xAA, 0x02, 0x22, 0x00, 0x00, 0x24, 0xDD] (fun h => absurd rfl h) (by decide),
   processIncomingData_true_requires_tag_frame.2 ⟨[0xAA, 0x02, 0x22, 0x00, 0x00, 0x24], 0⟩
      0xDD [1, 2, 3] (by decide)⟩

/-! ## Claim theorems: buffer overflow protection (C3) -/

/-- Claim C3: starting from any reachable fill level (at most 255 buffered
bytes), every byte the receive machine stores lands at an index below 256
and the fill level stays at most 255 (first conjunct); and feeding 256
consecutive non-header, non-footer bytes right after a header byte fills
the buffer to the 256-byte cap, which resets the fill index to 0, after
which the next header byte resynchronizes the machine (second conjunct). -/
theorem rx_buffer_never_overflows :
    (∀ (bs : List Nat) (st : RxState), st.buffer.length ≤ 255 →
      (∀ p ∈ (processRun st bs).writes, p < 256) ∧
      (processRun st bs).st.buffer.length ≤ 255) ∧
    (∀ (w : Nat) (bs : List Nat), bs.length = 256 →
      (∀ x ∈ bs, x ≠ FRAME_HEAD ∧ x ≠ FRAME_END) →
      (processRun ⟨[FRAME_HEAD], w⟩ bs).st.buffer = [] ∧
      (processRun ⟨[FRAME_HEAD], w⟩ (bs ++ [FRAME_HEAD])).st.buffer = [FRAME_HEAD]) := by
  constructor
  · exact processRun_bound
  · intro w bs hlen hns
    have hfill := processRun_fillReset bs ⟨[FRAME_HEAD], w⟩ hns (by simp)
      (by simp) (by simp [hlen])
    constructor
    · rw [hfill.1]
    · rw [processRun_append bs ⟨[FRAME_HEAD], w⟩ hfill.2 [FRAME_HEAD]]
      rw [hfill.1]
      rw [processRun_head w]

/-- Witness for C3: the general bound applied to a 2-byte stream from the
empty state, and the cap-reset/resync scenario on 256 `0x05` bytes. -/
theorem rx_buffer_never_overflows_witness :
    ((∀ p ∈ (processRun ⟨[], 0⟩ [0xAA, 0x03]).writes, p < 256) ∧
      (processRun ⟨[], 0⟩ [0xAA, 0x03]).st.buffer.length ≤ 255) ∧
    ((processRun ⟨[FRAME_HEAD], 0⟩ (List.replicate 256 5)).st.buffer = [] ∧
      (processRun ⟨[FRAME_HEAD], 0⟩ (List.replicate 256 5 ++ [FRAME_HEAD])).st.buffer =
        [FRAME_HEAD]) :=
  ⟨rx_buffer_never_overflows.1 [0xAA, 0x03] ⟨[], 0⟩ (by decide),
   rx_buffer_never_overflows.2 0 (List.replicate 256 5) (by decide) (by decide)⟩

/-! ## Claim theorems: frame encoder (C5) -/

/-- Claim C5, settled as a code bug: `sendCommand` performs no length
validation at all.  Every call assembles and transmits a frame of
`7 + params.length` bytes; with 58 parameter bytes the frame occupies 65
slots of the 64-byte `uint8_t packet[64]` assembly buffer, so the checksum
and footer writes land past the end of the array instead of the call
failing with a "frame too large" error. -/
theorem sendCommand_no_length_check_overflows :
    (∀ (type cmd : Nat) (params : List Nat),
      (sendCommand type cmd params).length = 7 + params.length) ∧
    (sendCommand 0 0 (List.replicate 58 0)).length = 65 ∧
    R200_PACKET_BUF_SIZE < (sendCommand 0 0 (List.replicate 58 0)).length := by
  refine ⟨sendCommand_length, ?_, ?_⟩
  · rw [sendCommand_length]
    simp
  · rw [sendCommand_length]
    simp [R200_PACKET_BUF_SIZE]

/-! ## Claim theorems: mutex acquisition timeouts (C6) -/

/-- Claim C6, counterexample: not every acquisition of `writeDataMutex` uses
a bounded timeout — the BLE `onWrite` callback sites pass `portMAX_DELAY`. -/
theorem writeDataMutex_unbounded_wait_exists :
    ¬ (∀ u ∈ writeDataMutexAcquisitions, u.timeoutTicks ≠ portMAX_DELAY) := by
  decide

/-- Claim C6 as amended: the task-side acquisitions of `writeDataMutex`
(`rfidTask`, `rfidWriteTask`) use a bounded 10-tick timeout, while both BLE
`onWrite` callback sites acquire it with the unbounded `portMAX_DELAY`. -/
theorem writeDataMutex_timeout_audit :
    ∀ u ∈ writeDataMutexAcquisitions,
      (u.isCallbackSite = true → u.timeoutTicks = portMAX_DELAY) ∧
      (u.isCallbackSite = false →
        u.timeoutTicks = 10 ∧ u.timeoutTicks ≠ portMAX_DELAY) := by
  decide

/-- Witness for the amended C6 theorem at the `rfidTask` acquisition site. -/
theorem writeDataMutex_timeout_audit_witness :
    ((MutexUse.mk false 10).isCallbackSite = true →
      (MutexUse.mk false 10).timeoutTicks = portMAX_DELAY) ∧
    ((MutexUse.mk false 10).isCallbackSite = false →
      (MutexUse.mk false 10).timeoutTicks = 10 ∧
      (MutexUse.mk false 10).timeoutTicks ≠ portMAX_DELAY) :=
  writeDataMutex_timeout_audit (MutexUse.mk false 10) (by decide)

/-! ## Claim theorems: writeEPC validation (C7) -/

/-- Claim C7: `writeEPC` rejects an EPC hex string whose length is not a
multiple of 4 before composing or transmitting anything; for lengths that
are a multiple of 4 validation passes and the composed `0x49` write frame
(header `0xAA`, command byte `0x49`, `16 + length/2` bytes in total) is
handed to the UART. -/
theorem writeEPC_validates_length (epc pwd : List Nat) :
    (epc.length % 4 ≠ 0 → writeEPC epc pwd = none) ∧
    (epc.length % 4 = 0 → ∃ f, writeEPC epc pwd = some f ∧
      f.getD 0 0 = FRAME_HEAD ∧ f.getD 2 0 = 0x49 ∧
      f.length = 16 + epc.length / 2) := by
  constructor
  · intro h
    simp [writeEPC, h]
  · intro h
    have he : writeEPC epc pwd =
        some (sendCommand 0x00 0x49
          ([(strtoulHex pwd >>> 24) % 256, (strtoulHex pwd >>> 16) % 256,
            (strtoulHex pwd >>> 8) % 256, strtoulHex pwd % 256,
            0x01, 0x00, 0x02,
            ((epc.length / 2 / 2) >>> 8) % 256, (epc.length / 2 / 2) % 256] ++
            hexPairsToBytes epc)) := by
      unfold writeEPC
      rw [if_neg (by omega)]
    refine ⟨_, he, ?_, ?_, ?_⟩
    · simp [sendCommand, FRAME_HEAD]
    · simp [sendCommand]
    · rw [sendCommand_length]
      simp [hexPairsToBytes_length]
      omega

/-- Witness for C7: the spec's example `"112233"` (6 characters, not a
multiple of 4) is rejected, and `"3132"` (4 characters) is transmitted. -/
theorem writeEPC_validates_length_witness :
    ([49, 49, 50, 50, 51, 51].length % 4 ≠ 0 ∧
      writeEPC [49, 49, 50, 50, 51, 51] pwd48 = none) ∧
    ([51, 49, 51, 50].length % 4 = 0 ∧
      ∃ f, writeEPC [51, 49, 51, 50] pwd48 = some f ∧
        f.getD 0 0 = FRAME_HEAD ∧ f.getD 2 0 = 0x49 ∧
        f.length = 16 + [51, 49, 51, 50].length / 2) :=
  ⟨⟨by decide, (writeEPC_validates_length [49, 49, 50, 50, 51, 51] pwd48).1 (by decide)⟩,
   ⟨by decide, (writeEPC_validates_length [51, 49, 51, 50] pwd48).2 (by decide)⟩⟩

/-! ## Claim theorems: hexCharToByte on non-hex input (C10) -/

/-- Claim C10: `hexCharToByte` maps every non-hex-digit character to 0, and
consequently `writeEPC` accepts the length-4 string `"ZZZZ"` and transmits
its two data bytes as `0x00 0x00` (zero nibbles) instead of reporting a
validation error. -/
theorem hexCharToByte_nonhex_is_zero :
    (∀ c : Nat, ¬ isHexDigitCode c → hexCharToByte c = 0) ∧
    (∃ f, writeEPC [90, 90, 90, 90] pwd48 = some f ∧
      (f.drop 14).take 2 = [0, 0]) := by
  constructor
  · intro c hc
    unfold isHexDigitCode at hc
    unfold hexCharToByte
    split_ifs with h1 h2 h3
    · exact absurd (Or.inl h1) hc
    · exact absurd (Or.inr (Or.inl h2)) hc
    · exact absurd (Or.inr (Or.inr h3)) hc
    · rfl
  · exact ⟨[0xAA, 0x00, 0x49, 0x00, 0x0B, 0, 0, 0, 0, 0x01, 0x00, 0x02, 0x00, 0x01, 0, 0, 0x58, 0xDD],
      by decide, by decide⟩

/-- Witness for C10 at the non-hex character `'Z'` (code 90). -/
theorem hexCharToByte_nonhex_is_zero_witness :
    ¬ isHexDigitCode 90 ∧ hexCharToByte 90 = 0 :=
  ⟨by decide, hexCharToByte_nonhex_is_zero.1 90 (by decide)⟩

/-! ## Claim theorems: OTA finalization (C4) -/

/-- Claim C4, counterexample: in the shortfall state `s900` (900 of 1000
announced bytes received, all declared chunks handled), one `otaTask`
iteration emits no notification at all — in particular no chunk re-request —
and leaves the `request` flag false; it only re-marks `writeFile`. -/
theorem otaTask_shortfall_no_rerequest :
    (otaStep true s900).2 = [] ∧
    (otaStep true s900).1.request = false ∧
    (otaStep true s900).1.writeFile = true ∧
    (otaStep true s900).1.otaMode = 2 ∧
    OtaNote.finalizeReboot ∉ (otaStep true s900).2 ∧
    s900.rParts = 900 ∧ s900.tParts = 1000 := by
  decide

/-- Claim C4 as amended: in `OTA_MODE` the transfer finalizes (emits the
image-apply/reboot hand-off) exactly when the received byte count after the
pending flush equals the announced total; on a shortfall it does not
finalize, re-marks the staging buffer as pending (`writeFile`), stays in
`OTA_MODE`, and issues no notification — in particular it does not request
the missing data (the `request` flag is left unchanged); the received byte
count never decreases. -/
theorem otaTask_finalizes_only_on_exact_count (openOk : Bool) (s : OtaState)
    (h : s.otaMode = 2) :
    (OtaNote.finalizeReboot ∈ (otaStep openOk s).2 ↔
      (flushPending openOk s).rParts = s.tParts) ∧
    ((flushPending openOk s).rParts ≠ s.tParts →
      (otaStep openOk s).1.writeFile = true ∧
      (otaStep openOk s).1.otaMode = 2 ∧
      (otaStep openOk s).2 = [] ∧
      (otaStep openOk s).1.request = s.request ∧
      s.rParts ≤ (otaStep openOk s).1.rParts) := by
  have hstep : otaStep openOk s = otaStepOta openOk s := by
    unfold otaStep
    rw [h]
    norm_num
  have ht := flushPending_tParts openOk s
  rw [hstep]
  unfold otaStepOta
  by_cases hc : (flushPending openOk s).rParts = s.tParts
  · rw [if_pos (show (flushPending openOk s).rParts = (flushPending openOk s).tParts by
      rw [ht]; exact hc)]
    exact ⟨by simp [hc], fun hne => absurd hc hne⟩
  · rw [if_neg (show ¬ (flushPending openOk s).rParts = (flushPending openOk s).tParts by
      rw [ht]; exact hc)]
    refine ⟨by simp [hc], fun _ => ⟨rfl, ?_, rfl, ?_, ?_⟩⟩
    · show (flushPending openOk s).otaMode = 2
      rw [flushPending_otaMode]
      exact h
    · show (flushPending openOk s).request = s.request
      exact flushPending_request openOk s
    · show s.rParts ≤ (flushPending openOk s).rParts
      exact flushPending_rParts_le openOk s

/-- Witness for the amended C4 theorem at the shortfall state `s900`. -/
theorem otaTask_finalizes_only_on_exact_count_witness :
    (OtaNote.finalizeReboot ∈ (otaStep true s900).2 ↔
      (flushPending true s900).rParts = s900.tParts) ∧
    ((flushPending true s900).rParts ≠ s900.tParts →
      (otaStep true s900).1.writeFile = true ∧
      (otaStep true s900).1.otaMode = 2 ∧
      (otaStep true s900).2 = [] ∧
      (otaStep true s900).1.request = s900.request ∧
      s900.rParts ≤ (otaStep true s900).1.rParts) :=
  otaTask_finalizes_only_on_exact_count true s900 (by decide)

/-! ## Lemmas about the hex renderings -/

lemma getD_lt_256 (l : List Nat) (h : ∀ x ∈ l, x < 256) (i : Nat) :
    l.getD i 0 < 256 := by
  by_cases hi : i < l.length
  · rw [List.getD_eq_getElem _ _ hi]
    exact h _ (List.getElem_mem hi)
  · rw [List.getD_eq_default _ _ (by omega)]
    omega

lemma encChar_byte : ∀ b, b < 256 →
    (encChar b).length = 2 ∧ ∀ ch ∈ encChar b, isUpperHexCode ch := by
  decide

lemma length_flatMap_two (n : Nat) (g : Nat → List Nat)
    (h : ∀ i < n, (g i).length = 2) :
    ((List.range n).flatMap g).length = 2 * n := by
  induction n with
  | zero => simp
  | succ m ih =>
    rw [List.range_succ, List.flatMap_append]
    have h1 := ih (fun i hi => h i (by omega))
    have h2 := h m (by omega)
    simp [h1, h2]
    omega

lemma parsePacket_epc_eq (pkt : List Nat) :
    (parsePacket pkt).epc =
      (List.range ((((pkt.getD 3 0) <<< 8) ||| pkt.getD 4 0) - 5)).flatMap
        (fun i => encChar (pkt.getD (8 + i) 0)) := by
  simp [parsePacket, encChar, List.map_flatMap]

/-! ## Claim theorems: EPC decoding shape (C8) -/

/-- Claim C8, counterexample: `pkt9` is a genuine dispatched tag-notification
frame with `paramLength = 9`, yet its decoded EPC has 8 hex characters, not
4 — the code renders `paramLength - 5 = 4` EPC bytes as two characters
each. -/
theorem parsePacket_paramLen9_not_4_chars :
    (processRun ⟨[], 0⟩ pkt9).ret = true ∧
    (processRun ⟨[], 0⟩ pkt9).frames = [pkt9] ∧
    (((pkt9.getD 3 0) <<< 8) ||| pkt9.getD 4 0) = 9 ∧
    (parsePacket pkt9).epc.length = 8 ∧
    ¬ ((parsePacket pkt9).epc.length = 4) := by
  decide

/-- Claim C8 as amended: for every dispatched tag-notification frame (any
byte list of `uint8_t` values), the decoded EPC consists of exactly
`paramLength - 5` bytes rendered as two upper-case hexadecimal characters
each — so `2 * (paramLength - 5)` characters in total (8 characters for
`paramLength = 9`, not 4) — and the tag is marked valid. -/
theorem parsePacket_epc_shape (pkt : List Nat) (h256 : ∀ x ∈ pkt, x < 256) :
    (parsePacket pkt).epc.length =
      2 * (((pkt.getD 3 0) <<< 8 ||| pkt.getD 4 0) - 5) ∧
    (∀ ch ∈ (parsePacket pkt).epc, isUpperHexCode ch) ∧
    (parsePacket pkt).valid = true := by
  refine ⟨?_, ?_, rfl⟩
  · rw [parsePacket_epc_eq]
    exact length_flatMap_two _ _
      (fun i _ => (encChar_byte _ (getD_lt_256 pkt h256 (8 + i))).1)
  · rw [parsePacket_epc_eq]
    intro ch hch
    rw [List.mem_flatMap] at hch
    obtain ⟨i, -, hchi⟩ := hch
    exact (encChar_byte _ (getD_lt_256 pkt h256 (8 + i))).2 ch hchi

/-- Witness for the amended C8 at the concrete frame `pkt9`. -/
theorem parsePacket_epc_shape_witness :
    (∀ x ∈ pkt9, x < 256) ∧
    ((parsePacket pkt9).epc.length =
        2 * (((pkt9.getD 3 0) <<< 8 ||| pkt9.getD 4 0) - 5) ∧
      (∀ ch ∈ (parsePacket pkt9).epc, isUpperHexCode ch) ∧
      (parsePacket pkt9).valid = true) :=
  ⟨by decide, parsePacket_epc_shape pkt9 (by decide)⟩

/-! ## Claim theorems: text/hex round trip (C9) -/

lemma textToHex_eq (text : List Nat) :
    textToHex text = padLoop 3 (text.flatMap encChar) := by
  simp only [textToHex]
  rw [List.map_flatMap]
  rfl

lemma encChar_decode : ∀ c, c < 127 → 32 ≤ c →
    (encChar c).length = 2 ∧ strtoulHexAux 0 (encChar c) = c := by
  decide

lemma hexToText_encChar (c : Nat) (h1 : 32 ≤ c) (h2 : c ≤ 126) (rest : List Nat) :
    hexToText (encChar c ++ rest) = c :: hexToText rest := by
  obtain ⟨hlen, hval⟩ := encChar_decode c (by omega) h1
  obtain ⟨d1, d2, hd⟩ := List.length_eq_two.mp hlen
  rw [hd] at hval
  rw [hd]
  show (if 32 ≤ strtoulHexAux 0 [d1, d2] ∧ strtoulHexAux 0 [d1, d2] ≤ 126
      then [strtoulHexAux 0 [d1, d2]] else []) ++ hexToText rest = c :: hexToText rest
  rw [hval, if_pos ⟨h1, h2⟩]
  rfl

lemma hexToText_flatMap_encChar : ∀ (s : List Nat),
    (∀ c ∈ s, 32 ≤ c ∧ c ≤ 126) → ∀ t,
    hexToText (s.flatMap encChar ++ t) = s ++ hexToText t := by
  intro s
  induction s with
  | nil =>
    intro _ t
    simp
  | cons c s ih =>
    intro h t
    have hc := h c (by simp)
    rw [List.flatMap_cons, List.append_assoc, hexToText_encChar c hc.1 hc.2,
      ih (fun x hx => h x (by simp [hx])) t]
    rfl

lemma length_flatMap_encChar (s : List Nat) (h : ∀ c ∈ s, 32 ≤ c ∧ c ≤ 126) :
    (s.flatMap encChar).length = 2 * s.length := by
  induction s with
  | nil => simp
  | cons c cs ih =>
    have hc := h c (by simp)
    have hl := (encChar_decode c (by omega) hc.1).1
    rw [List.flatMap_cons, List.length_append, hl,
      ih (fun x hx => h x (by simp [hx])), List.length_cons]
    omega

lemma padLoop_even (l : List Nat) (h : l.length % 2 = 0) :
    padLoop 3 l = l ++ (if l.length % 4 = 0 then [] else [48, 48]) := by
  have e3 : padLoop 3 l = if l.length % 4 = 0 then l else padLoop 2 (l ++ [48]) := rfl
  by_cases h4 : l.length % 4 = 0
  · rw [e3, if_pos h4, if_pos h4, List.append_nil]
  · have e2 : padLoop 2 (l ++ [48]) =
        if (l ++ [48]).length % 4 = 0 then l ++ [48]
        else padLoop 1 ((l ++ [48]) ++ [48]) := rfl
    have e1 : padLoop 1 ((l ++ [48]) ++ [48]) =
        if ((l ++ [48]) ++ [48]).length % 4 = 0 then (l ++ [48]) ++ [48]
        else padLoop 0 (((l ++ [48]) ++ [48]) ++ [48]) := rfl
    have hn2 : ¬ (l ++ [48]).length % 4 = 0 := by
      simp
      omega
    have hy1 : ((l ++ [48]) ++ [48]).length % 4 = 0 := by
      simp
      omega
    rw [e3, if_neg h4, e2, if_neg hn2, e1, if_pos hy1, if_neg h4]
    simp

/-- Claim C9: for every string of printable ASCII characters (codes 32..126),
`hexToText (textToHex s) = s` — `textToHex`'s trailing `'0'` padding only
ever adds a whole `"00"` pair, which decodes to the non-printable byte 0
that `hexToText` drops. -/
theorem hexToText_textToHex_roundtrip (s : List Nat)
    (h : ∀ c ∈ s, 32 ≤ c ∧ c ≤ 126) :
    hexToText (textToHex s) = s := by
  rw [textToHex_eq]
  have hlen := length_flatMap_encChar s h
  have heven : (s.flatMap encChar).length % 2 = 0 := by
    rw [hlen]
    omega
  rw [padLoop_even _ heven]
  by_cases h4 : (s.flatMap encChar).length % 4 = 0
  · rw [if_pos h4, List.append_nil, ← List.append_nil (s.flatMap encChar),
      hexToText_flatMap_encChar s h []]
    simp [hexToText]
  · rw [if_neg h4, hexToText_flatMap_encChar s h [48, 48]]
    have hz : hexToText [48, 48] = [] := by decide
    rw [hz, List.append_nil]

/-- Witness for C9 at the printable string `"Hi!"` (codes 72, 105, 33; the
odd length exercises the `"00"` padding path). -/
theorem hexToText_textToHex_roundtrip_witness :
    (∀ c ∈ [72, 105, 33], 32 ≤ c ∧ c ≤ 126) ∧
    hexToText (textToHex [72, 105, 33]) = [72, 105, 33] :=
  ⟨by decide, hexToText_textToHex_roundtrip [72, 105, 33] (by decide)⟩

end PatroRFID
